import Mathlib

/-!
ToolRelauncher: a shallow embedding of `RelauncherMain.cpp` and the properties of its
dispatch algorithm: candidate path composition, the modification-time scan, the Windows
command-line reconstruction (`SeekPast`) and the two hand-off back ends.

Conventions of the embedding.

* A C string (`const char_t*`, `str`) is the list of its characters before the
  terminating NUL; reading `*Source` at the end of the list reads the NUL.
* `time_t`, `int` and `errno` values are integers (`Int`); the scan only compares
  them, so no arithmetic can overflow.  A `DWORD` is a natural number below `2^32`.
* Calls into the operating system (`stat`, `GetCommandLine`, `_malloca`,
  `CreateProcess`, `GetExitCodeProcess`, `execv`) are parameters of the model.
* `stderr` is the list of the lines written, each kept as its format string and
  its arguments.
-/

namespace Relauncher

/-- The string type `str` of the source (`std::string` / `std::wstring`). -/
abbrev Str := List Char

/-! ## Logging: the `LOG` and `DEBUG` macros -/

/-- One argument of a `printf`-style call. -/
inductive LogArg where
  | s (value : Str)
  | d (value : Int)
  | zu (value : Nat)
  deriving DecidableEq, Repr

/-- One line written to `stderr`: the format string and its arguments. -/
structure LogLine where
  Format : Str
  args : List LogArg
  deriving DecidableEq, Repr

/-- The macro `LOG(Format, ...)`: one line on `stderr`. -/
def LOG (Format : String) (args : List LogArg) : List LogLine :=
  [{ Format := Format.toList, args := args }]

/-- The macro `DEBUG(Format, ...)`: `LOG("DEBUG: " Format, ...)` when `bDebug`, nothing otherwise. -/
def DEBUG (bDebug : Bool) (Format : String) (args : List LogArg) : List LogLine :=
  if bDebug then LOG ("DEBUG: " ++ Format) args else []

/-- A line of `stderr` is an error line when its text starts with `ERROR:`. -/
def isErrorLine (l : LogLine) : Bool :=
  "ERROR:".toList.isPrefixOf l.Format

/-- A line of `stderr` is a debug line when its text starts with `DEBUG:`. -/
def isDebugLine (l : LogLine) : Bool :=
  "DEBUG:".toList.isPrefixOf l.Format

/-! ## Path model -/

/-- The executable suffixes that are evaluated, in order. -/
def PotentialSuffixes : List Str :=
  ["Debug".toList, "Development".toList, "Test".toList, "Shipping".toList]

/-- The function `CombineExeNameAndSuffix`: `C:\foo\Bar.exe` and `Debug` give `C:\foo\BarDebug.exe`.
`substr(0, n)` is `take n`.  The subtraction `length() - 4` is only reached with
`bHasExeSuffix`, which `main` sets only when `length() >= 4`. -/
def CombineExeNameAndSuffix (ExeName : Str) (bHasExeSuffix : Bool) (SuffixIndex : Nat) : Str :=
  if bHasExeSuffix then
    ExeName.take (ExeName.length - 4) ++ PotentialSuffixes.getD SuffixIndex [] ++ ".exe".toList
  else
    ExeName ++ PotentialSuffixes.getD SuffixIndex []

/-- The flag `bHasExeSuffix` of `main`: `substr(n)` is `drop n`. -/
def bHasExeSuffix (ExeName : Str) : Bool :=
  decide (ExeName.length ≥ 4) && (ExeName.drop (ExeName.length - 4) == ".exe".toList)

/-- The constant `DebugArgument` of `main`. -/
def DebugArgument : Str := "--debug-relauncher".toList

/-- The flag `bDebug` of `main`: `argc > 1 ? str(argv[1]) == DebugArgument : false`. -/
def bDebugOf (argv : List Str) : Bool :=
  if argv.length > 1 then argv.getD 1 [] == DebugArgument else false

/-! ## Candidate scanner -/

/-- The result of one `stat` call: success with `st_mtime`, or failure with `errno`. -/
inductive StatResult where
  | ok (st_mtime : Int)
  | fail (errno : Int)
  deriving DecidableEq, Repr

/-- The `errno` value "no such file or directory". -/
def ENOENT : Int := 2

/-- The variables of the scan loop of `main`, and what it has written to `stderr`. -/
structure ScanState where
  MostRecentSuffixMtime : Int
  MostRecentSuffixIndex : Int
  log : List LogLine
  deriving DecidableEq, Repr

/-- The state before the loop: both variables are `-1`. -/
def scanInit : ScanState :=
  { MostRecentSuffixMtime := -1, MostRecentSuffixIndex := -1, log := [] }

/-- The body of the scan loop for one `SuffixIndex`, given the composed path and
the result of `stat` on it. -/
def scanStep (bDebug : Bool) (st : ScanState) (SuffixIndex : Nat) (SuffixedExeName : Str)
    (Stat : StatResult) : ScanState :=
  match Stat with
  | .ok st_mtime =>
    if st_mtime > st.MostRecentSuffixMtime then
      { MostRecentSuffixMtime := st_mtime,
        MostRecentSuffixIndex := SuffixIndex,
        log := st.log ++ DEBUG bDebug "'%s': File more recent than previous best, choose as current best candidate" [.s SuffixedExeName] }
    else
      { st with log := st.log ++ DEBUG bDebug "'%s': File older than previous best, ignoring" [.s SuffixedExeName] }
  | .fail errno =>
    if errno = ENOENT then
      { st with log := st.log ++ DEBUG bDebug "'%s': File does not exist, ignoring" [.s SuffixedExeName] }
    else
      { st with log := st.log ++ LOG "ERROR: '%s': Could not stat file, errno %d" [.s SuffixedExeName, .d errno] }

/-- The state after the first `n` iterations of the scan loop; `name i` is the
path composed in iteration `i` and `probe i` the result of `stat` on it. -/
def scanAfter (bDebug : Bool) (name : Nat → Str) (probe : Nat → StatResult) : Nat → ScanState
  | 0 => scanInit
  | n + 1 => scanStep bDebug (scanAfter bDebug name probe n) n (name n) (probe n)

/-- The whole scan loop: `sizeof(PotentialSuffixes) / sizeof(PotentialSuffixes[0])`
iterations. -/
def scan (bDebug : Bool) (name : Nat → Str) (probe : Nat → StatResult) : ScanState :=
  scanAfter bDebug name probe PotentialSuffixes.length

/-- The scan exactly as `main` runs it: the candidate paths are composed from
`argv[0]` and `stat` is called on each of them. -/
def mainScan (stat : Str → StatResult) (argv : List Str) : ScanState :=
  let ExeName := argv.headD []
  let bHas := bHasExeSuffix ExeName
  scan (bDebugOf argv) (fun i => CombineExeNameAndSuffix ExeName bHas i)
    (fun i => stat (CombineExeNameAndSuffix ExeName bHas i))

/-- The variable `NewExeName` of `main`: the path of the candidate that the scan selected. -/
def mainNewExeName (stat : Str → StatResult) (argv : List Str) : Str :=
  CombineExeNameAndSuffix (argv.headD []) (bHasExeSuffix (argv.headD []))
    (mainScan stat argv).MostRecentSuffixIndex.toNat

/-- The outcomes of the four probes given as a list, in the order of the
suffixes; a probe that is not listed found no such file. -/
def probesOf (l : List StatResult) : Nat → StatResult :=
  fun i => l.getD i (.fail ENOENT)

/-- Whether a probe failed with an error other than "no such file". -/
def isOtherError : StatResult → Bool
  | .ok _ => false
  | .fail errno => decide (errno ≠ ENOENT)

/-- The outcomes of the probes with every failure replaced by "no such file". -/
def otherErrorsAsAbsent (probe : Nat → StatResult) : Nat → StatResult :=
  fun i =>
    match probe i with
    | .ok st_mtime => .ok st_mtime
    | .fail _ => .fail ENOENT

/-! ## Windows: seeking in the verbatim command line -/

/-- The overload `SeekPast(Source, Character)`: seek past any number of `Character` in `Source`.
At the end of the string `*Source` reads the NUL, which differs from the
character sought (the source only ever passes a space), so the loop stops. -/
def SeekPastChar : Str → Char → Str
  | [], _ => []
  | c :: Source, Character => if c = Character then SeekPastChar Source Character else c :: Source

/-- The loop `for (; *Source && Identifier != IdentifierEnd; ++Source, ++Identifier)`
of `SeekPast(Source, Identifier)`: `none` is the `return nullptr` of its body,
`some (Source, Identifier)` the two pointers when the loop condition fails. -/
def SeekPastLoop : Str → Str → Option (Str × Str)
  | [], Identifier => some ([], Identifier)
  | Source, [] => some (Source, [])
  | c :: Source, i :: Identifier => if c ≠ i then none else SeekPastLoop Source Identifier

/-- The flag `bIdentifierIsQuoted` of `SeekPast`: first and last character are a
double quote and the length exceeds one. -/
def bIdentifierIsQuoted (Identifier : Str) : Bool :=
  Identifier.head? == some '"' && Identifier.getLast? == some '"' && decide (Identifier.length > 1)

/-- The overload `SeekPast(Source, Identifier)`: seek past `Identifier` in `Source`, also past
quotes and leading or trailing spaces; `none` is `nullptr`. -/
def SeekPast (Source Identifier : Str) : Option Str :=
  let Source := SeekPastChar Source ' '
  let Identifier := if bIdentifierIsQuoted Identifier then (Identifier.drop 1).dropLast else Identifier
  let bIsQuoted := Source.head? == some '"'
  let Source := if bIsQuoted then Source.drop 1 else Source
  match SeekPastLoop Source Identifier with
  | none => none
  | some (Source, Identifier) =>
    if Identifier ≠ [] then none
    else if bIsQuoted then
      if Source.head? ≠ some '"' then none
      else some (SeekPastChar (Source.drop 1) ' ')
    else some (SeekPastChar Source ' ')

/-! ## Windows: rebuilding the command line -/

/-- The constant `ExePrefix` of `main`. -/
def ExePrefix : Str := ['"']

/-- The constant `ExeSuffix` of `main`. -/
def ExeSuffix : Str := ['"', ' ']

/-- The value of `sizeof(wchar_t)` on Windows. -/
def sizeof_wchar_t : Nat := 2

/-- The variable `NewCommandlineLength` of `main`. -/
def NewCommandlineLength (Arguments NewExeName : Str) : Nat :=
  Arguments.length + NewExeName.length + ExePrefix.length + ExeSuffix.length + 1

/-- The routine `_tcsset_s(Dest, NumberOfElements, Value)`: overwrite the characters of the
string in `Dest` by `Value`; `none` when no terminator lies within
`NumberOfElements` characters (the invalid-parameter handler runs). Filling with
NUL leaves the empty string. -/
def tcsset_s (Dest : Str) (NumberOfElements : Nat) (Value : Char) : Option Str :=
  if Dest.length < NumberOfElements then
    some (if Value = Char.ofNat 0 then [] else List.replicate Dest.length Value)
  else none

/-- The routine `_tcscat_s(Dest, NumberOfElements, Src)`: append `Src` to the string in
`Dest`; `none` when the result and its terminator do not fit in
`NumberOfElements` characters (the invalid-parameter handler runs). -/
def tcscat_s (Dest : Str) (NumberOfElements : Nat) (Src : Str) : Option Str :=
  if Dest.length + Src.length < NumberOfElements then some (Dest ++ Src) else none

/-- The five calls that fill `NewCommandline`; `block` is the string found in the
uninitialised memory that `_malloca` returned. -/
def FillCommandline (block : Str) (Length : Nat) (NewExeName Arguments : Str) : Option Str :=
  (tcsset_s block Length (Char.ofNat 0)).bind fun b0 =>
  (tcscat_s b0 Length ExePrefix).bind fun b1 =>
  (tcscat_s b1 Length NewExeName).bind fun b2 =>
  (tcscat_s b2 Length ExeSuffix).bind fun b3 =>
  tcscat_s b3 Length Arguments

/-- How the reconstruction of the command line in `main` ends. -/
inductive Reconstructed where
  | seekFailed (Identifier : Str)
  | allocFailed (bytes : Nat)
  | invalidParameter
  | ok (NewCommandline : Str)
  deriving DecidableEq, Repr

/-- The reconstruction of the command line in the Windows branch of `main`: seek
past `argv[0]`, past `DebugArgument` when `bDebug`, allocate and fill the buffer. -/
def Reconstruct (CommandLine argv0 : Str) (bDebug : Bool) (NewExeName : Str)
    (malloca : Nat → Option Str) : Reconstructed :=
  match SeekPast CommandLine argv0 with
  | none => .seekFailed argv0
  | some Arguments =>
    match (if bDebug then SeekPast Arguments DebugArgument else some Arguments) with
    | none => .seekFailed DebugArgument
    | some Arguments =>
      let Length := NewCommandlineLength Arguments NewExeName
      match malloca (Length * sizeof_wchar_t) with
      | none => .allocFailed (Length * sizeof_wchar_t)
      | some block =>
        match FillCommandline block Length NewExeName Arguments with
        | none => .invalidParameter
        | some NewCommandline => .ok NewCommandline

/-! ## Executor -/

/-- How a run of `main` ends. -/
inductive Outcome where
  | exit (code : Int)
  | replaced (path : Str) (argv : List Str)
  | invalidParameter
  deriving DecidableEq, Repr

/-- What a run of `main` does: the lines on `stderr`, the arguments of the
`CreateProcess` call if one was made, and how the run ends. -/
structure Run where
  stderr : List LogLine
  spawned : Option (Str × Str)
  outcome : Outcome
  deriving DecidableEq, Repr

/-- The conversion of a `DWORD` to `int` in `return ExitCode;`. -/
def intOfDWORD (k : Nat) : Int :=
  if k % 2 ^ 32 < 2 ^ 31 then ((k % 2 ^ 32 : Nat) : Int) else ((k % 2 ^ 32 : Nat) : Int) - 2 ^ 32

/-- The operating system as the Windows branch of `main` sees it. -/
structure WinEnv where
  stat : Str → StatResult
  GetCommandLine : Str
  malloca : Nat → Option Str
  CreateProcess : Str → Str → Bool
  GetExitCodeProcess : Option Nat
  FormatMessage : Str

/-- The spawn-and-wait part of the Windows branch: what it writes and what `main`
returns. `created` is the result of `CreateProcess`, `ExitCode` that of
`GetExitCodeProcess` (`none` when the call fails). -/
def SpawnAndWait (bDebug : Bool) (NewExeName Buffer : Str) (created : Bool)
    (ExitCode : Option Nat) : List LogLine × Int :=
  if created then
    match ExitCode with
    | some ExitCode => ([], intOfDWORD ExitCode)
    | none =>
      (DEBUG bDebug "ERROR: '%s' failed to retrieve exit code: %s" [.s NewExeName, .s Buffer],
        intOfDWORD 1)
  else
    (DEBUG bDebug "ERROR: '%s' failed to spawn: %s" [.s NewExeName, .s Buffer], 1)

/-- The function `main` as built for Windows. -/
def mainWindows (env : WinEnv) (argv : List Str) : Run :=
  let ExeName := argv.headD []
  let bDebug := bDebugOf argv
  let st := mainScan env.stat argv
  if st.MostRecentSuffixIndex ≥ 0 then
    let log := st.log ++ LOG "==> Relauncher starting %s exe"
      [.s (PotentialSuffixes.getD st.MostRecentSuffixIndex.toNat [])]
    let NewExeName := mainNewExeName env.stat argv
    match Reconstruct env.GetCommandLine ExeName bDebug NewExeName env.malloca with
    | .seekFailed Identifier =>
      { stderr := log ++ LOG "ERROR: Could not seek past '%s' in command line '%s'"
          [.s Identifier, .s env.GetCommandLine],
        spawned := none, outcome := .exit 1 }
    | .allocFailed bytes =>
      { stderr := log ++ LOG "ERROR: Failed to allocate new command line buffer (%zu bytes)"
          [.zu bytes],
        spawned := none, outcome := .exit 1 }
    | .invalidParameter => { stderr := log, spawned := none, outcome := .invalidParameter }
    | .ok NewCommandline =>
      let r := SpawnAndWait bDebug NewExeName env.FormatMessage
        (env.CreateProcess NewExeName NewCommandline) env.GetExitCodeProcess
      { stderr := log ++ DEBUG bDebug "$ %s" [.s NewCommandline] ++ r.1,
        spawned := some (NewExeName, NewCommandline), outcome := .exit r.2 }
  else
    { stderr := st.log ++ LOG
        "ERROR: Could not find any candidates for '%s' (try launching with --debug-relauncher to see information)"
        [.s ExeName],
      spawned := none, outcome := .exit 1 }

/-- The operating system as the Linux branch of `main` sees it: `execv` gives
`none` when it replaces the process image and the `errno` when it returns. -/
structure PosixEnv where
  stat : Str → StatResult
  execv : Str → List Str → Option Int

/-- The program and the argument vector that the Linux branch hands to `execv`:
`argv[FirstRealArgument]` and `&argv[FirstRealArgument]` after the assignment
`argv[FirstRealArgument] = strdup(NewExeName.c_str())`. -/
def execvCall (argv : List Str) (bDebug : Bool) (NewExeName : Str) : Str × List Str :=
  let FirstRealArgument := if bDebug then 1 else 0
  let argv := argv.set FirstRealArgument NewExeName
  (argv.getD FirstRealArgument [], argv.drop FirstRealArgument)

/-- The function `main` as built for Linux. -/
def mainPosix (env : PosixEnv) (argv : List Str) : Run :=
  let ExeName := argv.headD []
  let bDebug := bDebugOf argv
  let st := mainScan env.stat argv
  if st.MostRecentSuffixIndex ≥ 0 then
    let log := st.log ++ LOG "==> Relauncher starting %s exe"
      [.s (PotentialSuffixes.getD st.MostRecentSuffixIndex.toNat [])]
    let NewExeName := mainNewExeName env.stat argv
    let call := execvCall argv bDebug NewExeName
    let log := log ++ DEBUG bDebug "$ '%s' [.. args ..]" [.s NewExeName]
    match env.execv call.1 call.2 with
    | none => { stderr := log, spawned := none, outcome := .replaced call.1 call.2 }
    | some errno =>
      { stderr := log ++ LOG "ERROR: Could not execute %s, errno %d" [.s NewExeName, .d errno],
        spawned := none, outcome := .exit 1 }
  else
    { stderr := st.log ++ LOG
        "ERROR: Could not find any candidates for '%s' (try launching with --debug-relauncher to see information)"
        [.s ExeName],
      spawned := none, outcome := .exit 1 }

/-! ## Concrete inputs used to evaluate the model -/

/-- A directory that holds `ToolDebug.exe` only, last modified at time 100. -/
def onlyDebugStat : Str → StatResult :=
  fun p => if p = "ToolDebug.exe".toList then .ok 100 else .fail ENOENT

/-- A Windows run of `Tool.exe` without arguments in that directory, where
`CreateProcess` succeeds and the child ends with exit code 42. -/
def childExits42 : WinEnv :=
  { stat := onlyDebugStat, GetCommandLine := "Tool.exe".toList, malloca := fun _ => some [],
    CreateProcess := fun _ _ => true, GetExitCodeProcess := some 42, FormatMessage := [] }

/-- A Windows run of `Tool.exe` without arguments in that directory, where
`CreateProcess` fails and the system message is `Access is denied.` -/
def spawnFails : WinEnv :=
  { stat := onlyDebugStat, GetCommandLine := "Tool.exe".toList, malloca := fun _ => some [],
    CreateProcess := fun _ _ => false, GetExitCodeProcess := none,
    FormatMessage := "Access is denied.".toList }

/-! ## The scan: freshness and tie-break -/

/-- What holds of the loop variables after `n` iterations: either nothing was
chosen and every file seen has `st_mtime ≤ -1`, or the chosen index `i` was seen
present, its time exceeds `-1`, no file seen is more recent and every file seen
before `i` is strictly older. -/
def ScanInv (probe : Nat → StatResult) (n : Nat) (st : ScanState) : Prop :=
  (st.MostRecentSuffixIndex = -1 ∧ st.MostRecentSuffixMtime = -1 ∧
      ∀ j u, j < n → probe j = .ok u → u ≤ -1) ∨
  (∃ i, i < n ∧ st.MostRecentSuffixIndex = (i : Int) ∧
      probe i = .ok st.MostRecentSuffixMtime ∧ -1 < st.MostRecentSuffixMtime ∧
      (∀ j u, j < n → probe j = .ok u → u ≤ st.MostRecentSuffixMtime) ∧
      (∀ j u, j < i → probe j = .ok u → u < st.MostRecentSuffixMtime))

theorem scanInv_keep (probe : Nat → StatResult) (n : Nat) (st st' : ScanState)
    (h : ScanInv probe n st)
    (h1 : st'.MostRecentSuffixIndex = st.MostRecentSuffixIndex)
    (h2 : st'.MostRecentSuffixMtime = st.MostRecentSuffixMtime)
    (hn : ∀ u, probe n = .ok u → u ≤ st.MostRecentSuffixMtime) :
    ScanInv probe (n + 1) st' := by
  have hlt : ∀ j, j < n + 1 → j < n ∨ j = n := fun j hj => by omega
  rcases h with ⟨hi, hm, hall⟩ | ⟨i, hin, hi, hpi, hm, hall, hbefore⟩
  · left
    refine ⟨h1.trans hi, h2.trans hm, ?_⟩
    intro j u hj hu
    rcases hlt j hj with hj | rfl
    · exact hall j u hj hu
    · have := hn u hu; omega
  · right
    refine ⟨i, by omega, h1.trans hi, by rw [h2]; exact hpi, by rw [h2]; exact hm, ?_, ?_⟩
    · intro j u hj hu
      rw [h2]
      rcases hlt j hj with hj | rfl
      · exact hall j u hj hu
      · exact hn u hu
    · intro j u hj hu
      rw [h2]
      exact hbefore j u hj hu

theorem scanInv_replace (probe : Nat → StatResult) (n : Nat) (st st' : ScanState) (t : Int)
    (h : ScanInv probe n st) (hp : probe n = .ok t) (hgt : t > st.MostRecentSuffixMtime)
    (h1 : st'.MostRecentSuffixIndex = (n : Int)) (h2 : st'.MostRecentSuffixMtime = t) :
    ScanInv probe (n + 1) st' := by
  have hlt : ∀ j, j < n + 1 → j < n ∨ j = n := fun j hj => by omega
  have hold : -1 ≤ st.MostRecentSuffixMtime ∧
      ∀ j u, j < n → probe j = .ok u → u ≤ st.MostRecentSuffixMtime := by
    rcases h with ⟨_, hm, hall⟩ | ⟨_, _, _, _, hm, hall, _⟩
    · exact ⟨by omega, fun j u hj hu => by have := hall j u hj hu; omega⟩
    · exact ⟨by omega, hall⟩
  right
  refine ⟨n, by omega, h1, by rw [h2]; exact hp, by omega, ?_, ?_⟩
  · intro j u hj hu
    rcases hlt j hj with hj | rfl
    · have := hold.2 j u hj hu; omega
    · rw [hp] at hu; cases hu; omega
  · intro j u hj hu
    have := hold.2 j u hj hu; omega

theorem scanStep_inv (bDebug : Bool) (name : Str) (probe : Nat → StatResult) (n : Nat)
    (st : ScanState) (h : ScanInv probe n st) :
    ScanInv probe (n + 1) (scanStep bDebug st n name (probe n)) := by
  cases hp : probe n with
  | ok t =>
    by_cases hgt : t > st.MostRecentSuffixMtime
    · simp only [scanStep, hgt, if_true]
      exact scanInv_replace probe n st _ t h hp hgt rfl rfl
    · simp only [scanStep, hgt, if_false]
      refine scanInv_keep probe n st _ h rfl rfl ?_
      intro u hu
      rw [hp] at hu; cases hu; omega
  | fail e =>
    have hn : ∀ u, probe n = .ok u → u ≤ st.MostRecentSuffixMtime := by
      intro u hu; rw [hp] at hu; cases hu
    by_cases he : e = ENOENT
    · simp only [scanStep, he, if_true]
      exact scanInv_keep probe n st _ h rfl rfl hn
    · simp only [scanStep, he, if_false]
      exact scanInv_keep probe n st _ h rfl rfl hn

theorem scanAfter_inv (bDebug : Bool) (name : Nat → Str) (probe : Nat → StatResult) :
    ∀ n, ScanInv probe n (scanAfter bDebug name probe n)
  | 0 => Or.inl ⟨rfl, rfl, fun _ _ hj => absurd hj (Nat.not_lt_zero _)⟩
  | n + 1 => scanStep_inv bDebug (name n) probe n _ (scanAfter_inv bDebug name probe n)

theorem scan_inv (bDebug : Bool) (name : Nat → Str) (probe : Nat → StatResult) :
    ScanInv probe 4 (scan bDebug name probe) :=
  scanAfter_inv bDebug name probe 4

/-- C1 (freshness): whenever the scan selects a candidate, the selected index is
one of 0..3, that candidate's probe was present, and its `st_mtime` is at least
that of every present candidate. -/
theorem scan_freshness (bDebug : Bool) (name : Nat → Str) (probe : Nat → StatResult)
    (h : (scan bDebug name probe).MostRecentSuffixIndex ≥ 0) :
    ∃ (i : Nat) (t : Int), (scan bDebug name probe).MostRecentSuffixIndex = (i : Int) ∧ i < 4 ∧
      probe i = .ok t ∧ ∀ j u, j < 4 → probe j = .ok u → u ≤ t := by
  rcases scan_inv bDebug name probe with ⟨hi, _, _⟩ | ⟨i, hin, hi, hpi, _, hall, _⟩
  · omega
  · exact ⟨i, _, hi, hin, hpi, hall⟩

/-- Witness for C1: `ToolDebug.exe` (mtime 100), `ToolDevelopment.exe` (mtime 200)
and `ToolTest.exe` (mtime 150) are present; the scan selects a candidate and the
conclusion of `scan_freshness` holds there. -/
theorem scan_freshness_witness :
    (scan false (fun i => CombineExeNameAndSuffix "Tool.exe".toList true i)
        (probesOf [.ok 100, .ok 200, .ok 150])).MostRecentSuffixIndex ≥ 0 ∧
    ∃ (i : Nat) (t : Int), (scan false (fun i => CombineExeNameAndSuffix "Tool.exe".toList true i)
        (probesOf [.ok 100, .ok 200, .ok 150])).MostRecentSuffixIndex = (i : Int) ∧ i < 4 ∧
      probesOf [.ok 100, .ok 200, .ok 150] i = .ok t ∧
      ∀ j u, j < 4 → probesOf [.ok 100, .ok 200, .ok 150] j = .ok u → u ≤ t :=
  ⟨by decide, scan_freshness _ _ _ (by decide)⟩

/-- The tie-break of the scan when the most recent time is not negative: the
scan selects the smallest index whose file has the greatest `st_mtime`. -/
theorem scan_tiebreak_of_nonneg (bDebug : Bool) (name : Nat → Str) (probe : Nat → StatResult)
    (i : Nat) (t : Int) (hi : i < 4) (hp : probe i = .ok t) (ht : 0 ≤ t)
    (hmax : ∀ j u, j < 4 → probe j = .ok u → u ≤ t)
    (hfirst : ∀ j, j < i → probe j ≠ .ok t) :
    (scan bDebug name probe).MostRecentSuffixIndex = (i : Int) := by
  rcases scan_inv bDebug name probe with ⟨_, _, hall⟩ | ⟨k, hkn, hk, hpk, _, hall, hbefore⟩
  · have := hall i t hi hp; omega
  · have h1 := hall i t hi hp
    have h2 := hmax k _ hkn hpk
    have heq : (scan bDebug name probe).MostRecentSuffixMtime = t := le_antisymm h2 h1
    rw [heq] at hpk hbefore
    rcases Nat.lt_trichotomy k i with hlt | heq' | hgt
    · exact absurd hpk (hfirst k hlt)
    · rw [hk, heq']
    · exact absurd (hbefore i t hgt hp) (lt_irrefl _)

/-- The scan selects a candidate exactly when some probed file is present with a
time that is not negative. -/
theorem scan_selects_iff_nonneg (bDebug : Bool) (name : Nat → Str) (probe : Nat → StatResult) :
    (scan bDebug name probe).MostRecentSuffixIndex ≥ 0 ↔
      ∃ j u, j < 4 ∧ probe j = .ok u ∧ 0 ≤ u := by
  rcases scan_inv bDebug name probe with ⟨hi, _, hall⟩ | ⟨k, hkn, hk, hpk, hm, _, _⟩
  · constructor
    · intro h; omega
    · rintro ⟨j, u, hj, hu, h0⟩
      have := hall j u hj hu; omega
  · constructor
    · intro _; exact ⟨k, _, hkn, hpk, by omega⟩
    · intro _; omega

/-- C2 (tie-break), evaluated where the code departs from it: `ToolDebug.exe` and
`ToolDevelopment.exe` are both present with `st_mtime = -86400` (one day before
the epoch) and share the greatest time, yet the scan selects no candidate. -/
theorem scan_tie_before_epoch_selects_none :
    (scan false (fun i => CombineExeNameAndSuffix "Tool.exe".toList true i)
        (probesOf [.ok (-86400), .ok (-86400)])).MostRecentSuffixIndex = -1 := by
  decide

/-- C3 (a candidate is selected exactly when one is present), evaluated where the
code departs from it: only `ToolDebug.exe` is present, with `st_mtime = -1`; the
scan selects nothing and `main` reports that there is no candidate and returns 1. -/
theorem main_present_before_epoch_not_selected :
    (mainScan (fun p => if p = "ToolDebug.exe".toList then .ok (-1) else .fail ENOENT)
        ["Tool.exe".toList]).MostRecentSuffixIndex = -1 ∧
    mainPosix { stat := fun p => if p = "ToolDebug.exe".toList then .ok (-1) else .fail ENOENT,
                execv := fun _ _ => none } ["Tool.exe".toList] =
      { stderr := LOG "ERROR: Could not find any candidates for '%s' (try launching with --debug-relauncher to see information)" [.s "Tool.exe".toList],
        spawned := none, outcome := .exit 1 } := by
  decide

/-! ## Path composition -/

theorem bHasExeSuffix_append_exe (q : Str) : bHasExeSuffix (q ++ ".exe".toList) = true := by
  simp [bHasExeSuffix]

theorem bHasExeSuffix_eq_true_iff (p : Str) :
    bHasExeSuffix p = true ↔ ∃ q, p = q ++ ".exe".toList := by
  constructor
  · intro h
    simp only [bHasExeSuffix, Bool.and_eq_true, decide_eq_true_eq, beq_iff_eq] at h
    refine ⟨p.take (p.length - 4), ?_⟩
    rw [← h.2, List.take_append_drop]
  · rintro ⟨q, rfl⟩
    exact bHasExeSuffix_append_exe q

theorem CombineExeNameAndSuffix_append_exe (q : Str) (i : Nat) :
    CombineExeNameAndSuffix (q ++ ".exe".toList) true i =
      q ++ PotentialSuffixes.getD i [] ++ ".exe".toList := by
  simp [CombineExeNameAndSuffix]

/-- C4 (path composition): for every invocation path `p` and every suffix index
`i` of the fixed list, if `p = q ++ ".exe"` the candidate path is
`q ++ suffix ++ ".exe"`; otherwise the candidate path is `p ++ suffix`, which
covers every path shorter than four characters and every path ending in `.EXE`. -/
theorem path_composition (p : Str) (i : Nat) (hi : i < PotentialSuffixes.length) :
    (∃ s, s ∈ PotentialSuffixes ∧ PotentialSuffixes.getD i [] = s) ∧
    (∀ q, p = q ++ ".exe".toList →
      CombineExeNameAndSuffix p (bHasExeSuffix p) i =
        q ++ PotentialSuffixes.getD i [] ++ ".exe".toList) ∧
    ((¬ ∃ q, p = q ++ ".exe".toList) →
      CombineExeNameAndSuffix p (bHasExeSuffix p) i = p ++ PotentialSuffixes.getD i []) ∧
    (p.length < 4 →
      CombineExeNameAndSuffix p (bHasExeSuffix p) i = p ++ PotentialSuffixes.getD i []) ∧
    (∀ q, p = q ++ ".EXE".toList →
      CombineExeNameAndSuffix p (bHasExeSuffix p) i = p ++ PotentialSuffixes.getD i []) := by
  have hno : bHasExeSuffix p = false →
      CombineExeNameAndSuffix p (bHasExeSuffix p) i = p ++ PotentialSuffixes.getD i [] := by
    intro h
    simp [CombineExeNameAndSuffix, h]
  refine ⟨⟨_, ?_, rfl⟩, ?_, ?_, ?_, ?_⟩
  · rw [List.getD_eq_getElem _ _ hi]
    exact List.getElem_mem _
  · rintro q rfl
    rw [bHasExeSuffix_append_exe, CombineExeNameAndSuffix_append_exe]
  · intro h
    apply hno
    rw [← Bool.not_eq_true, bHasExeSuffix_eq_true_iff]
    exact h
  · intro h
    apply hno
    simp only [bHasExeSuffix, Bool.and_eq_false_iff, decide_eq_false_iff_not]
    left; omega
  · rintro q rfl
    apply hno
    simp [bHasExeSuffix]

/-- Witness for C4: the stub `Tool.exe` and the suffix `Debug` (index 0). -/
theorem path_composition_witness :
    (0 < PotentialSuffixes.length) ∧
    CombineExeNameAndSuffix "Tool.exe".toList (bHasExeSuffix "Tool.exe".toList) 0 =
      "Tool".toList ++ PotentialSuffixes.getD 0 [] ++ ".exe".toList :=
  ⟨by decide, (path_composition "Tool.exe".toList 0 (by decide)).2.1 "Tool".toList (by decide)⟩

/-! ## POSIX hand-off -/

theorem bDebugOf_eq_true_iff (argv : List Str) :
    bDebugOf argv = true ↔ argv[1]? = some DebugArgument := by
  match argv with
  | [] => simp [bDebugOf]
  | [_] => simp [bDebugOf]
  | _ :: b :: _ => simp [bDebugOf]

theorem execvCall_eq (argv : List Str) (N : Str) (h : argv.length ≥ 1) :
    execvCall argv (bDebugOf argv) N = (N, N :: argv.drop (if bDebugOf argv then 2 else 1)) := by
  match argv, h with
  | [a], _ => simp [execvCall, bDebugOf]
  | a :: b :: rest, _ =>
    by_cases hb : bDebugOf (a :: b :: rest) = true
    · simp [execvCall, hb]
    · simp [execvCall, hb]

/-- C7 (POSIX argument forwarding): for every argument vector with `argc ≥ 1` and
every sibling path `N`, the program passed to `execv` is `N` and the vector is
`N` followed by `argv[1..]` when `argv[1]` is not the debug flag, `N` followed by
`argv[2..]` when it is; when the scan selected a sibling and `execv` succeeds on
that call, `main` ends by replacing the process image with exactly that program
and vector. For `[stub, --debug-relauncher, hello]` the child receives the single
argument `hello`. -/
theorem posix_argument_forwarding (argv : List Str) (N : Str) (h : argv.length ≥ 1) :
    (execvCall argv (bDebugOf argv) N).1 = N ∧
    (argv[1]? ≠ some DebugArgument →
      (execvCall argv (bDebugOf argv) N).2 = N :: argv.drop 1) ∧
    (argv[1]? = some DebugArgument →
      (execvCall argv (bDebugOf argv) N).2 = N :: argv.drop 2) ∧
    (∀ env : PosixEnv, (mainScan env.stat argv).MostRecentSuffixIndex ≥ 0 →
      env.execv (mainNewExeName env.stat argv)
        (mainNewExeName env.stat argv :: argv.drop (if bDebugOf argv then 2 else 1)) = none →
      (mainPosix env argv).outcome =
        .replaced (mainNewExeName env.stat argv)
          (mainNewExeName env.stat argv :: argv.drop (if bDebugOf argv then 2 else 1))) ∧
    (∀ stub hello : Str,
      execvCall [stub, DebugArgument, hello] (bDebugOf [stub, DebugArgument, hello]) N =
        (N, [N, hello])) := by
  refine ⟨?_, ?_, ?_, ?_, ?_⟩
  · rw [execvCall_eq argv N h]
  · intro hne
    have hb : bDebugOf argv = false := by
      rw [← Bool.not_eq_true, bDebugOf_eq_true_iff]; exact hne
    rw [execvCall_eq argv N h, hb]; rfl
  · intro he
    have hb : bDebugOf argv = true := (bDebugOf_eq_true_iff argv).2 he
    rw [execvCall_eq argv N h, hb]; rfl
  · intro env hsel hex
    simp only [mainPosix, hsel, if_true, execvCall_eq argv _ h, hex]
  · intro stub hello
    rw [execvCall_eq _ N (by simp)]
    simp [bDebugOf]

/-- Witness for C7: the vector `[Tool, --debug-relauncher, hello]` and the sibling
`ToolDebug`. -/
theorem posix_argument_forwarding_witness :
    (["Tool".toList, DebugArgument, "hello".toList].length ≥ 1) ∧
    (execvCall ["Tool".toList, DebugArgument, "hello".toList]
        (bDebugOf ["Tool".toList, DebugArgument, "hello".toList]) "ToolDebug".toList).2 =
      "ToolDebug".toList :: ["Tool".toList, DebugArgument, "hello".toList].drop 2 :=
  ⟨by decide,
    (posix_argument_forwarding ["Tool".toList, DebugArgument, "hello".toList]
      "ToolDebug".toList (by decide)).2.2.1 (by decide)⟩

/-! ## Windows hand-off: exit code and diagnostics -/

theorem intOfDWORD_of_lt (k : Nat) (hk : k < 2 ^ 32) :
    intOfDWORD k = if k < 2 ^ 31 then (k : Int) else (k : Int) - 2 ^ 32 := by
  simp only [intOfDWORD, Nat.mod_eq_of_lt hk]

theorem intOfDWORD_eq_zero_iff (k : Nat) (hk : k < 2 ^ 32) : intOfDWORD k = 0 ↔ k = 0 := by
  rw [intOfDWORD_of_lt k hk]
  split <;> omega

theorem mainWindows_outcome_of_reconstructed (env : WinEnv) (argv : List Str) (c : Str)
    (hsel : (mainScan env.stat argv).MostRecentSuffixIndex ≥ 0)
    (hrec : Reconstruct env.GetCommandLine (argv.headD []) (bDebugOf argv)
      (mainNewExeName env.stat argv) env.malloca = .ok c) :
    (mainWindows env argv).outcome =
      .exit (SpawnAndWait (bDebugOf argv) (mainNewExeName env.stat argv) env.FormatMessage
        (env.CreateProcess (mainNewExeName env.stat argv) c) env.GetExitCodeProcess).2 := by
  simp only [mainWindows, hsel, if_true, hrec]

/-- C8 (Windows exit-code propagation): once a sibling has been selected and the
command line reconstructed, for every 32-bit exit code `k` of the child, if
`CreateProcess` and `GetExitCodeProcess` succeed then `main` returns the `int`
conversion of `k`, which is 0 exactly when `k = 0` and is `k` itself for `k` in
0, 2, 42, 255; if `CreateProcess` fails or `GetExitCodeProcess` fails `main`
returns 1. -/
theorem windows_exit_code_propagation (env : WinEnv) (argv : List Str) (c : Str)
    (hsel : (mainScan env.stat argv).MostRecentSuffixIndex ≥ 0)
    (hrec : Reconstruct env.GetCommandLine (argv.headD []) (bDebugOf argv)
      (mainNewExeName env.stat argv) env.malloca = .ok c) :
    (∀ k : Nat, k < 2 ^ 32 →
      env.CreateProcess (mainNewExeName env.stat argv) c = true →
      env.GetExitCodeProcess = some k →
        (mainWindows env argv).outcome =
          .exit (if k < 2 ^ 31 then (k : Int) else (k : Int) - 2 ^ 32) ∧
        ((mainWindows env argv).outcome = .exit 0 ↔ k = 0) ∧
        (k ∈ [0, 2, 42, 255] → (mainWindows env argv).outcome = .exit (k : Int))) ∧
    (env.CreateProcess (mainNewExeName env.stat argv) c = false →
      (mainWindows env argv).outcome = .exit 1) ∧
    (env.CreateProcess (mainNewExeName env.stat argv) c = true →
      env.GetExitCodeProcess = none → (mainWindows env argv).outcome = .exit 1) := by
  have hout := mainWindows_outcome_of_reconstructed env argv c hsel hrec
  refine ⟨?_, ?_, ?_⟩
  · intro k hk hc he
    have hret : (mainWindows env argv).outcome = .exit (intOfDWORD k) := by
      rw [hout, hc, he]; rfl
    refine ⟨?_, ?_, ?_⟩
    · rw [hret, intOfDWORD_of_lt k hk]
    · rw [hret]
      constructor
      · intro h0
        exact (intOfDWORD_eq_zero_iff k hk).1 (Outcome.exit.inj h0)
      · intro h0
        rw [(intOfDWORD_eq_zero_iff k hk).2 h0]
    · intro hmem
      rw [hret, intOfDWORD_of_lt k hk]
      simp only [List.mem_cons, List.mem_singleton, List.not_mem_nil, or_false] at hmem
      rcases hmem with rfl | rfl | rfl | rfl <;> rfl
  · intro hc
    rw [hout, hc]; rfl
  · intro hc he
    rw [hout, hc, he]; rfl

/-- Witness for C8: `Tool.exe` finds `ToolDebug.exe`, the child ends with exit
code 42 and `main` returns 42. -/
theorem windows_exit_code_propagation_witness :
    (mainScan childExits42.stat ["Tool.exe".toList]).MostRecentSuffixIndex ≥ 0 ∧
    Reconstruct childExits42.GetCommandLine (["Tool.exe".toList].headD [])
      (bDebugOf ["Tool.exe".toList]) (mainNewExeName childExits42.stat ["Tool.exe".toList])
      childExits42.malloca = .ok "\"ToolDebug.exe\" ".toList ∧
    (mainWindows childExits42 ["Tool.exe".toList]).outcome = .exit 42 :=
  ⟨by decide, by decide,
    ((windows_exit_code_propagation childExits42 ["Tool.exe".toList] "\"ToolDebug.exe\" ".toList
      (by decide) (by decide)).1 42 (by decide) (by decide) (by decide)).2.2 (by decide)⟩

/-- C9 (nothing is swallowed), evaluated where the code departs from it: without
the debug flag, when `CreateProcess` fails, `main` returns 1 and the only line on
`stderr` is the line that names the chosen configuration; no line starts with
`ERROR:` and the system message is not written. The failure branch itself writes
nothing whatever the sibling and the message are. -/
theorem windows_spawn_failure_is_silent :
    (mainWindows spawnFails ["Tool.exe".toList]).outcome = .exit 1 ∧
    (mainWindows spawnFails ["Tool.exe".toList]).stderr =
      LOG "==> Relauncher starting %s exe" [.s "Debug".toList] ∧
    (mainWindows spawnFails ["Tool.exe".toList]).stderr.filter isErrorLine = [] ∧
    (∀ (NewExeName Buffer : Str) (ExitCode : Option Nat),
      SpawnAndWait false NewExeName Buffer false ExitCode = ([], 1)) :=
  ⟨by decide, by decide, by decide, fun _ _ _ => rfl⟩


theorem SeekPastChar_of_ne (c Character : Char) (X : Str) (h : c ≠ Character) :
    SeekPastChar (c :: X) Character = c :: X := by
  simp [SeekPastChar, h]

theorem SeekPastLoop_eq_some_nil_iff (X I X' : Str) :
    SeekPastLoop X I = some (X', []) ↔ X = I ++ X' := by
  induction I generalizing X with
  | nil =>
    cases X <;> simp [SeekPastLoop, eq_comm]
  | cons i I ih =>
    cases X with
    | nil => simp [SeekPastLoop]
    | cons c X =>
      by_cases h : c = i
      · simp [SeekPastLoop, h, ih]
      · simp [SeekPastLoop, h]

theorem SeekPast_eq_some_iff (S I T : Str) :
    SeekPast S I = some T ↔
      (if (SeekPastChar S ' ').head? = some '"' then
        ∃ R, SeekPastChar S ' ' =
            '"' :: ((if bIdentifierIsQuoted I then (I.drop 1).dropLast else I) ++ '"' :: R) ∧
          T = SeekPastChar R ' '
      else
        ∃ R, SeekPastChar S ' ' =
            (if bIdentifierIsQuoted I then (I.drop 1).dropLast else I) ++ R ∧
          T = SeekPastChar R ' ') := by
  unfold SeekPast
  generalize (if bIdentifierIsQuoted I = true then (I.drop 1).dropLast else I) = J
  generalize SeekPastChar S ' ' = S'
  by_cases hq : S'.head? = some '"'
  · obtain ⟨X, rfl⟩ : ∃ X, S' = '"' :: X := by
      cases S' with
      | nil => simp at hq
      | cons c X => simp at hq; exact ⟨X, by rw [hq]⟩
    simp only [List.head?_cons, beq_self_eq_true, if_true, List.drop_one, List.tail_cons,
      List.cons.injEq, true_and]
    cases hl : SeekPastLoop X J with
    | none =>
      refine ⟨(fun h => by cases h), ?_⟩
      rintro ⟨R, hR, _⟩
      exfalso
      rw [(SeekPastLoop_eq_some_nil_iff X J _).2 hR] at hl
      cases hl
    | some r =>
      obtain ⟨X', J'⟩ := r
      by_cases hJ : J' = []
      · subst hJ
        have hX := (SeekPastLoop_eq_some_nil_iff X J X').1 hl
        subst hX
        simp only [ne_eq, not_true_eq_false, if_false, List.append_cancel_left_eq]
        by_cases hh : X'.head? = some '"'
        · simp only [hh, not_true_eq_false, if_false, if_true, Option.some.injEq]
          obtain ⟨R, rfl⟩ : ∃ R, X' = '"' :: R := by
            cases X' with
            | nil => simp at hh
            | cons c R => simp at hh; exact ⟨R, by rw [hh]⟩
          simp [eq_comm]
        · simp only [hh, not_false_eq_true, if_true]
          refine ⟨(fun h => by cases h), ?_⟩
          rintro ⟨R, hR, _⟩
          exfalso
          rw [hR] at hh; simp at hh
      · simp only [ne_eq, hJ, not_false_eq_true, if_true]
        refine ⟨(fun h => by cases h), ?_⟩
        rintro ⟨R, hR, _⟩
        exfalso
        rw [(SeekPastLoop_eq_some_nil_iff X J _).2 hR] at hl
        simp only [Option.some.injEq, Prod.mk.injEq] at hl
        exact hJ hl.2.symm
  · have hb : (S'.head? == some '"') = false := by simpa using hq
    simp only [hb, hq, if_false, Bool.false_eq_true]
    cases hl : SeekPastLoop S' J with
    | none =>
      refine ⟨(fun h => by cases h), ?_⟩
      rintro ⟨R, hR, _⟩
      exfalso
      rw [(SeekPastLoop_eq_some_nil_iff S' J _).2 hR] at hl
      cases hl
    | some r =>
      obtain ⟨X', J'⟩ := r
      by_cases hJ : J' = []
      · subst hJ
        have hX := (SeekPastLoop_eq_some_nil_iff S' J X').1 hl
        subst hX
        simp [eq_comm]
      · simp only [ne_eq, hJ, not_false_eq_true, if_true]
        refine ⟨(fun h => by cases h), ?_⟩
        rintro ⟨R, hR, _⟩
        exfalso
        rw [(SeekPastLoop_eq_some_nil_iff S' J _).2 hR] at hl
        simp only [Option.some.injEq, Prod.mk.injEq] at hl
        exact hJ hl.2.symm


theorem SeekPastChar_eq_dropWhile (S : Str) (Character : Char) :
    SeekPastChar S Character = S.dropWhile (fun c => c == Character) := by
  induction S with
  | nil => rfl
  | cons c X ih =>
    by_cases h : c = Character
    · simp [SeekPastChar, h, ih]
    · simp [SeekPastChar, h]

theorem tcscat_s_of_lt (Dest Src : Str) (n : Nat) (h : Dest.length + Src.length < n) :
    tcscat_s Dest n Src = some (Dest ++ Src) := by
  simp [tcscat_s, h]

theorem tcsset_s_nul_of_lt (Dest : Str) (n : Nat) (h : Dest.length < n) :
    tcsset_s Dest n (Char.ofNat 0) = some [] := by
  simp [tcsset_s, h]

theorem FillCommandline_eq (block NewExeName Arguments : Str)
    (hb : block.length < NewCommandlineLength Arguments NewExeName) :
    FillCommandline block (NewCommandlineLength Arguments NewExeName) NewExeName Arguments =
      some ('"' :: (NewExeName ++ '"' :: ' ' :: Arguments)) := by
  have hlen : NewCommandlineLength Arguments NewExeName =
      Arguments.length + NewExeName.length + 4 := by
    simp [NewCommandlineLength, ExePrefix, ExeSuffix]
  unfold FillCommandline
  rw [tcsset_s_nul_of_lt block _ hb, Option.some_bind,
    tcscat_s_of_lt [] ExePrefix _ (by rw [hlen]; simp [ExePrefix]), Option.some_bind,
    tcscat_s_of_lt _ NewExeName _ (by rw [hlen]; simp [ExePrefix]; omega), Option.some_bind,
    tcscat_s_of_lt _ ExeSuffix _ (by rw [hlen]; simp [ExePrefix, ExeSuffix]; omega),
    Option.some_bind,
    tcscat_s_of_lt _ Arguments _ (by rw [hlen]; simp [ExePrefix, ExeSuffix]; omega)]
  simp [ExePrefix, ExeSuffix]

/-- C10 (source-quote rule of `SeekPast`): for every source `S` and every
identifier `I` that is not wrapped in double quotes, with `S'` the source after
its leading spaces: if `S'` starts with a double quote, `SeekPast` succeeds
exactly when `S'` is a quote, `I`, a quote and some `R`; otherwise exactly when
`S'` is `I` followed by some `R`. On success the result is `R` after its leading
spaces, in every other case it is null. Only the space is skipped: a source that
begins with a tab, or any character other than a space, is left where it is. -/
theorem SeekPast_source_quote_rule (S I : Str) (hI : bIdentifierIsQuoted I = false) :
    (∀ T, SeekPast S I = some T ↔
      (if (S.dropWhile (fun c => c == ' ')).head? = some '"' then
        ∃ R, S.dropWhile (fun c => c == ' ') = '"' :: (I ++ '"' :: R) ∧
          T = R.dropWhile (fun c => c == ' ')
      else
        ∃ R, S.dropWhile (fun c => c == ' ') = I ++ R ∧ T = R.dropWhile (fun c => c == ' '))) ∧
    (SeekPast S I = none ↔
      ¬ (if (S.dropWhile (fun c => c == ' ')).head? = some '"' then
        ∃ R, S.dropWhile (fun c => c == ' ') = '"' :: (I ++ '"' :: R)
      else
        ∃ R, S.dropWhile (fun c => c == ' ') = I ++ R)) ∧
    (∀ (c : Char) (X : Str), c ≠ ' ' → SeekPastChar (c :: X) ' ' = c :: X) ∧
    (∀ X : Str, SeekPastChar ('\t' :: X) ' ' = '\t' :: X) := by
  have hsome : ∀ T, SeekPast S I = some T ↔
      (if (S.dropWhile (fun c => c == ' ')).head? = some '"' then
        ∃ R, S.dropWhile (fun c => c == ' ') = '"' :: (I ++ '"' :: R) ∧
          T = R.dropWhile (fun c => c == ' ')
      else
        ∃ R, S.dropWhile (fun c => c == ' ') = I ++ R ∧
          T = R.dropWhile (fun c => c == ' ')) := by
    intro T
    rw [SeekPast_eq_some_iff, hI]
    simp only [SeekPastChar_eq_dropWhile, Bool.false_eq_true, if_false]
  refine ⟨hsome, ?_, ?_, ?_⟩
  · rw [← Option.not_isSome_iff_eq_none, Option.isSome_iff_exists]
    apply not_congr
    constructor
    · rintro ⟨T, hT⟩
      have := (hsome T).1 hT
      split at this
      · rename_i hh
        rw [if_pos hh]
        obtain ⟨R, hR, _⟩ := this
        exact ⟨R, hR⟩
      · rename_i hh
        rw [if_neg hh]
        obtain ⟨R, hR, _⟩ := this
        exact ⟨R, hR⟩
    · intro h
      split at h
      · rename_i hh
        obtain ⟨R, hR⟩ := h
        exact ⟨_, (hsome _).2 (by rw [if_pos hh]; exact ⟨R, hR, rfl⟩)⟩
      · rename_i hh
        obtain ⟨R, hR⟩ := h
        exact ⟨_, (hsome _).2 (by rw [if_neg hh]; exact ⟨R, hR, rfl⟩)⟩
  · intro c X hc
    exact SeekPastChar_of_ne c ' ' X hc
  · intro X
    exact SeekPastChar_of_ne _ _ X (by decide)

/-- Witness for C10: the identifier `Tool.exe`, which is not wrapped in double
quotes, sought in the source `"Tool.exe" a`. -/
theorem SeekPast_source_quote_rule_witness :
    bIdentifierIsQuoted "Tool.exe".toList = false ∧
    (SeekPast "\"Tool.exe\" a".toList "Tool.exe".toList = some "a".toList ↔
      (if ("\"Tool.exe\" a".toList.dropWhile (fun c => c == ' ')).head? = some '"' then
        ∃ R, "\"Tool.exe\" a".toList.dropWhile (fun c => c == ' ') =
            '"' :: ("Tool.exe".toList ++ '"' :: R) ∧
          "a".toList = R.dropWhile (fun c => c == ' ')
      else
        ∃ R, "\"Tool.exe\" a".toList.dropWhile (fun c => c == ' ') = "Tool.exe".toList ++ R ∧
          "a".toList = R.dropWhile (fun c => c == ' '))) :=
  ⟨by decide, (SeekPast_source_quote_rule "\"Tool.exe\" a".toList "Tool.exe".toList
    (by decide)).1 "a".toList⟩

/-! ## Diagnostics of the branches that do not hand off -/

/-- On Linux every run that does not replace the process image returns 1 and
ends `stderr` with a line that starts with `ERROR:`. -/
theorem mainPosix_failure_logs_error (env : PosixEnv) (argv : List Str)
    (h : ∀ p a, (mainPosix env argv).outcome ≠ .replaced p a) :
    (mainPosix env argv).outcome = .exit 1 ∧
    ∃ pre l, (mainPosix env argv).stderr = pre ++ [l] ∧ isErrorLine l = true := by
  unfold mainPosix at h ⊢
  by_cases hsel : (mainScan env.stat argv).MostRecentSuffixIndex ≥ 0
  · simp only [hsel, if_true] at h ⊢
    cases hex : env.execv (execvCall argv (bDebugOf argv) (mainNewExeName env.stat argv)).1
        (execvCall argv (bDebugOf argv) (mainNewExeName env.stat argv)).2 with
    | none =>
      simp only [hex] at h
      exact absurd rfl (h _ _)
    | some errno =>
      simp only [LOG]
      exact ⟨trivial, _, _, rfl, rfl⟩
  · simp only [hsel, if_false, LOG]
    exact ⟨trivial, _, _, rfl, rfl⟩

/-- On Windows every run in which no candidate is selected, a `SeekPast` call
fails or the buffer cannot be allocated returns 1 and ends `stderr` with a line
that starts with `ERROR:`. -/
theorem mainWindows_failure_logs_error (env : WinEnv) (argv : List Str)
    (h : (mainScan env.stat argv).MostRecentSuffixIndex < 0 ∨
      (∃ Identifier, Reconstruct env.GetCommandLine (argv.headD []) (bDebugOf argv)
        (mainNewExeName env.stat argv) env.malloca = .seekFailed Identifier) ∨
      (∃ bytes, Reconstruct env.GetCommandLine (argv.headD []) (bDebugOf argv)
        (mainNewExeName env.stat argv) env.malloca = .allocFailed bytes)) :
    (mainWindows env argv).outcome = .exit 1 ∧
    ∃ pre l, (mainWindows env argv).stderr = pre ++ [l] ∧ isErrorLine l = true := by
  unfold mainWindows
  by_cases hsel : (mainScan env.stat argv).MostRecentSuffixIndex ≥ 0
  · simp only [hsel, if_true]
    rcases h with h | ⟨Identifier, h⟩ | ⟨bytes, h⟩
    · omega
    · simp only [h, LOG]
      exact ⟨trivial, _, _, rfl, rfl⟩
    · simp only [h, LOG]
      exact ⟨trivial, _, _, rfl, rfl⟩
  · simp only [hsel, if_false, LOG]
    exact ⟨trivial, _, _, rfl, rfl⟩

/-! ## The stub never chooses itself -/

theorem PotentialSuffixes_getD_ne_nil (i : Nat) (hi : i < PotentialSuffixes.length) :
    PotentialSuffixes.getD i [] ≠ [] := by
  have h4 : i < 4 := hi
  interval_cases i <;> decide

theorem CombineExeNameAndSuffix_length (p : Str) (i : Nat) :
    (CombineExeNameAndSuffix p (bHasExeSuffix p) i).length =
      p.length + (PotentialSuffixes.getD i []).length := by
  by_cases h : bHasExeSuffix p = true
  · obtain ⟨q, rfl⟩ := (bHasExeSuffix_eq_true_iff p).1 h
    rw [h, CombineExeNameAndSuffix_append_exe]
    simp only [List.length_append]
    omega
  · rw [Bool.not_eq_true] at h
    simp [CombineExeNameAndSuffix, h]

theorem scan_index_lt (bDebug : Bool) (name : Nat → Str) (probe : Nat → StatResult)
    (h : (scan bDebug name probe).MostRecentSuffixIndex ≥ 0) :
    (scan bDebug name probe).MostRecentSuffixIndex.toNat < PotentialSuffixes.length := by
  rcases scan_inv bDebug name probe with ⟨hi, _, _⟩ | ⟨i, hin, hi, _, _, _, _⟩
  · omega
  · rw [hi]
    exact hin

/-- C12 (the stub never chooses itself): for every invocation path `p` and every
suffix index `i` of the list, the candidate path is `p` lengthened by the
characters of the suffix, so it differs from `p`; and whenever `main` selects a
sibling, the path it launches differs from `argv[0]`. -/
theorem stub_never_chooses_itself (p : Str) (i : Nat) (hi : i < PotentialSuffixes.length) :
    CombineExeNameAndSuffix p (bHasExeSuffix p) i ≠ p ∧
    (CombineExeNameAndSuffix p (bHasExeSuffix p) i).length > p.length ∧
    (∀ (stat : Str → StatResult) (rest : List Str),
      (mainScan stat (p :: rest)).MostRecentSuffixIndex ≥ 0 →
        mainNewExeName stat (p :: rest) ≠ p) := by
  have hlen : ∀ j, j < PotentialSuffixes.length →
      (CombineExeNameAndSuffix p (bHasExeSuffix p) j).length > p.length := by
    intro j hj
    rw [CombineExeNameAndSuffix_length]
    have := List.length_pos.2 (PotentialSuffixes_getD_ne_nil j hj)
    omega
  refine ⟨?_, hlen i hi, ?_⟩
  · intro heq
    have := hlen i hi
    rw [heq] at this
    exact lt_irrefl _ this
  · intro stat rest hsel heq
    have hlt : (mainScan stat (p :: rest)).MostRecentSuffixIndex.toNat <
        PotentialSuffixes.length := scan_index_lt _ _ _ hsel
    have := hlen _ hlt
    simp only [mainNewExeName, List.headD_cons] at heq
    rw [heq] at this
    exact lt_irrefl _ this

/-- Witness for C12: the stub `Tool.exe` and the suffix `Shipping` (index 3). -/
theorem stub_never_chooses_itself_witness :
    (3 < PotentialSuffixes.length) ∧
    CombineExeNameAndSuffix "Tool.exe".toList (bHasExeSuffix "Tool.exe".toList) 3 ≠
      "Tool.exe".toList :=
  ⟨by decide, (stub_never_chooses_itself "Tool.exe".toList 3 (by decide)).1⟩

/-! ## Recognition of the debug flag -/

/-- C13 (debug-flag recognition): debug mode is on exactly when `argc > 1` and
`argv[1]` equals `--debug-relauncher`; it does not depend on `argv[0]` nor on
`argv[2..]`. When `argv[1]` is another value it is forwarded in slot 1 of the
vector given to `execv`, and every slot `k ≥ 2` of `argv`, whatever it holds, is
forwarded: in slot `k` when debug mode is off and in slot `k - 1` when it is on. -/
theorem debug_flag_recognition (argv : List Str) (N : Str) (h : argv.length ≥ 1) :
    (bDebugOf argv = true ↔ argv.length > 1 ∧ argv[1]? = some DebugArgument) ∧
    (∀ (a a' b : Str) (rest rest' : List Str),
      bDebugOf (a :: b :: rest) = bDebugOf (a' :: b :: rest')) ∧
    (∀ (a b : Str) (rest : List Str), b ≠ DebugArgument → bDebugOf (a :: b :: rest) = false) ∧
    (argv[1]? ≠ some DebugArgument →
      (execvCall argv (bDebugOf argv) N).2[1]? = argv[1]?) ∧
    (∀ k, 2 ≤ k →
      (execvCall argv (bDebugOf argv) N).2[if bDebugOf argv then k - 1 else k]? = argv[k]?) := by
  refine ⟨?_, ?_, ?_, ?_, ?_⟩
  · rw [bDebugOf_eq_true_iff]
    constructor
    · intro h1
      refine ⟨?_, h1⟩
      by_contra hlen
      rw [List.getElem?_eq_none (by omega)] at h1
      cases h1
    · exact fun h1 => h1.2
  · intro a a' b rest rest'
    simp [bDebugOf]
  · intro a b rest hb
    simp [bDebugOf, hb]
  · intro hne
    have hb : bDebugOf argv = false := by
      rw [← Bool.not_eq_true, bDebugOf_eq_true_iff]; exact hne
    rw [execvCall_eq argv N h, hb]
    simp
  · intro k hk
    rw [execvCall_eq argv N h]
    obtain ⟨j, rfl⟩ : ∃ j, k = j + 2 := ⟨k - 2, by omega⟩
    by_cases hb : bDebugOf argv = true
    · simp [hb]
      rw [show 2 + j = j + 2 by omega]
    · rw [Bool.not_eq_true] at hb
      simp [hb]

/-- Witness for C13: in `[Tool, a, --debug-relauncher]` the flag stands in slot 2;
debug mode is off and the flag is forwarded in slot 2. -/
theorem debug_flag_recognition_witness :
    (["Tool".toList, "a".toList, DebugArgument].length ≥ 1) ∧
    bDebugOf ["Tool".toList, "a".toList, DebugArgument] = false ∧
    (execvCall ["Tool".toList, "a".toList, DebugArgument]
        (bDebugOf ["Tool".toList, "a".toList, DebugArgument]) "ToolDebug".toList).2[
          if bDebugOf ["Tool".toList, "a".toList, DebugArgument] then 2 - 1 else 2]? =
      ["Tool".toList, "a".toList, DebugArgument][2]? :=
  ⟨by decide, by decide,
    (debug_flag_recognition ["Tool".toList, "a".toList, DebugArgument] "ToolDebug".toList
      (by decide)).2.2.2.2 2 (by decide)⟩

/-! ## Debug mode and the hand-off on Linux -/

theorem scanStep_vars (bDebug : Bool) (st : ScanState) (i : Nat) (name : Str)
    (Stat : StatResult) :
    (scanStep bDebug st i name Stat).MostRecentSuffixIndex =
      (match Stat with
        | .ok t => if t > st.MostRecentSuffixMtime then (i : Int) else st.MostRecentSuffixIndex
        | .fail _ => st.MostRecentSuffixIndex) ∧
    (scanStep bDebug st i name Stat).MostRecentSuffixMtime =
      (match Stat with
        | .ok t => if t > st.MostRecentSuffixMtime then t else st.MostRecentSuffixMtime
        | .fail _ => st.MostRecentSuffixMtime) := by
  cases Stat with
  | ok t =>
    by_cases hgt : t > st.MostRecentSuffixMtime
    · simp [scanStep, hgt]
    · simp [scanStep, hgt]
  | fail e =>
    by_cases he : e = ENOENT
    · simp [scanStep, he]
    · simp [scanStep, he]

/-- The loop variables of the scan depend only on which probes succeeded and on
their times: not on the debug flag, the paths, or the `errno` of a failure. -/
theorem scanAfter_vars_congr (b b' : Bool) (name name' : Nat → Str)
    (probe probe' : Nat → StatResult)
    (h : ∀ i, (∃ t, probe i = .ok t ∧ probe' i = .ok t) ∨
      (∃ e e', probe i = .fail e ∧ probe' i = .fail e')) (n : Nat) :
    (scanAfter b name probe n).MostRecentSuffixIndex =
      (scanAfter b' name' probe' n).MostRecentSuffixIndex ∧
    (scanAfter b name probe n).MostRecentSuffixMtime =
      (scanAfter b' name' probe' n).MostRecentSuffixMtime := by
  induction n with
  | zero => exact ⟨rfl, rfl⟩
  | succ n ih =>
    simp only [scanAfter]
    rw [(scanStep_vars b _ n (name n) (probe n)).1, (scanStep_vars b _ n (name n) (probe n)).2,
      (scanStep_vars b' _ n (name' n) (probe' n)).1,
      (scanStep_vars b' _ n (name' n) (probe' n)).2, ih.1, ih.2]
    rcases h n with ⟨t, h1, h2⟩ | ⟨e, e', h1, h2⟩
    · rw [h1, h2]; exact ⟨rfl, rfl⟩
    · rw [h1, h2]; exact ⟨rfl, rfl⟩

theorem probe_agrees_self (probe : Nat → StatResult) (i : Nat) :
    (∃ t, probe i = .ok t ∧ probe i = .ok t) ∨
      (∃ e e', probe i = .fail e ∧ probe i = .fail e') := by
  cases h : probe i with
  | ok t => exact Or.inl ⟨t, rfl, rfl⟩
  | fail e => exact Or.inr ⟨e, e, rfl, rfl⟩

theorem mainScan_index_cons (stat : Str → StatResult) (p : Str) (rest rest' : List Str) :
    (mainScan stat (p :: rest)).MostRecentSuffixIndex =
      (mainScan stat (p :: rest')).MostRecentSuffixIndex :=
  (scanAfter_vars_congr _ _ _ _ _ _ (probe_agrees_self _) _).1

theorem mainNewExeName_cons (stat : Str → StatResult) (p : Str) (rest rest' : List Str) :
    mainNewExeName stat (p :: rest) = mainNewExeName stat (p :: rest') := by
  simp only [mainNewExeName, List.headD_cons, mainScan_index_cons stat p rest rest']

theorem DEBUG_false (Format : String) (args : List LogArg) : DEBUG false Format args = [] :=
  rfl

theorem isDebugLine_DEBUG (Format : String) (args : List LogArg) :
    ∀ l ∈ DEBUG true Format args, isDebugLine l = true ∧ isErrorLine l = false := by
  intro l hl
  simp only [DEBUG, if_true, LOG, List.mem_singleton] at hl
  subst hl
  simp only [isDebugLine, isErrorLine, String.toList, String.data_append]
  exact ⟨rfl, rfl⟩

theorem DEBUG_filter_not_debug (b : Bool) (Format : String) (args : List LogArg) :
    (DEBUG b Format args).filter (fun l => !isDebugLine l) = [] := by
  cases b with
  | false => rfl
  | true =>
    rw [List.filter_eq_nil_iff]
    intro l hl
    simp [(isDebugLine_DEBUG Format args l hl).1]

theorem DEBUG_filter_error (b : Bool) (Format : String) (args : List LogArg) :
    (DEBUG b Format args).filter isErrorLine = [] := by
  cases b with
  | false => rfl
  | true =>
    rw [List.filter_eq_nil_iff]
    intro l hl
    simp [(isDebugLine_DEBUG Format args l hl).2]

/-- What one iteration of the scan loop appends to `stderr`. -/
theorem scanStep_log (bDebug : Bool) (st : ScanState) (i : Nat) (name : Str)
    (Stat : StatResult) :
    (scanStep bDebug st i name Stat).log = st.log ++
      (match Stat with
        | .ok t =>
          if t > st.MostRecentSuffixMtime then
            DEBUG bDebug "'%s': File more recent than previous best, choose as current best candidate" [.s name]
          else DEBUG bDebug "'%s': File older than previous best, ignoring" [.s name]
        | .fail e =>
          if e = ENOENT then DEBUG bDebug "'%s': File does not exist, ignoring" [.s name]
          else LOG "ERROR: '%s': Could not stat file, errno %d" [.s name, .d e]) := by
  cases Stat with
  | ok t =>
    by_cases hgt : t > st.MostRecentSuffixMtime
    · simp [scanStep, hgt]
    · simp [scanStep, hgt]
  | fail e =>
    by_cases he : e = ENOENT
    · simp [scanStep, he]
    · simp [scanStep, he]

/-- Without its `DEBUG:` lines, the `stderr` of the scan run in debug mode is the
`stderr` of the scan run without it. -/
theorem scanAfter_log_without_debug (name : Nat → Str) (probe : Nat → StatResult) (n : Nat) :
    (scanAfter true name probe n).log.filter (fun l => !isDebugLine l) =
      (scanAfter false name probe n).log := by
  induction n with
  | zero => rfl
  | succ n ih =>
    have hv := (scanAfter_vars_congr true false name name probe probe
      (probe_agrees_self probe) n).2
    simp only [scanAfter]
    rw [scanStep_log, scanStep_log, List.filter_append, ih, hv]
    congr 1
    cases probe n with
    | ok t =>
      simp only []
      split <;> simp only [DEBUG_filter_not_debug, DEBUG_false]
    | fail e =>
      simp only []
      split
      · simp only [DEBUG_filter_not_debug, DEBUG_false]
      · rfl

/-- C17 (debug mode is transparent to the hand-off on Linux): for every program
name `p`, every argument list `rest` whose first element, if any, is not
`--debug-relauncher`, and every fixed file system, the runs on
`[p, --debug-relauncher] ++ rest` and on `[p] ++ rest` select the same sibling,
hand `execv` the same program and the same vector (the sibling followed by
`rest`) and end the same way; the first run writes to `stderr` what the second
writes plus lines that start with `DEBUG:`. -/
theorem debug_mode_transparent_on_posix (env : PosixEnv) (p : Str) (rest : List Str)
    (h : rest.head? ≠ some DebugArgument) :
    (mainScan env.stat (p :: DebugArgument :: rest)).MostRecentSuffixIndex =
      (mainScan env.stat (p :: rest)).MostRecentSuffixIndex ∧
    mainNewExeName env.stat (p :: DebugArgument :: rest) = mainNewExeName env.stat (p :: rest) ∧
    (∀ N : Str,
      execvCall (p :: DebugArgument :: rest) (bDebugOf (p :: DebugArgument :: rest)) N =
        (N, N :: rest) ∧
      execvCall (p :: rest) (bDebugOf (p :: rest)) N = (N, N :: rest)) ∧
    (mainPosix env (p :: DebugArgument :: rest)).outcome = (mainPosix env (p :: rest)).outcome ∧
    (mainPosix env (p :: DebugArgument :: rest)).stderr.filter (fun l => !isDebugLine l) =
      (mainPosix env (p :: rest)).stderr := by
  have hb1 : bDebugOf (p :: DebugArgument :: rest) = true := by simp [bDebugOf]
  have hb2 : bDebugOf (p :: rest) = false := by
    rw [← Bool.not_eq_true, bDebugOf_eq_true_iff]
    cases rest with
    | nil => simp
    | cons a r => simpa using h
  have hidx := mainScan_index_cons env.stat p (DebugArgument :: rest) rest
  have hname := mainNewExeName_cons env.stat p (DebugArgument :: rest) rest
  have hcall : ∀ N : Str,
      execvCall (p :: DebugArgument :: rest) (bDebugOf (p :: DebugArgument :: rest)) N =
        (N, N :: rest) ∧
      execvCall (p :: rest) (bDebugOf (p :: rest)) N = (N, N :: rest) := by
    intro N
    rw [execvCall_eq _ N (by simp), execvCall_eq _ N (by simp), hb1, hb2]
    exact ⟨rfl, rfl⟩
  have hlog : (mainScan env.stat (p :: DebugArgument :: rest)).log.filter
      (fun l => !isDebugLine l) = (mainScan env.stat (p :: rest)).log := by
    simp only [mainScan, hb1, hb2, List.headD_cons, scan]
    exact scanAfter_log_without_debug _ _ _
  have hc1 : ∀ N : Str, execvCall (p :: DebugArgument :: rest) true N = (N, N :: rest) :=
    fun _ => rfl
  have hc2 : ∀ N : Str, execvCall (p :: rest) false N = (N, N :: rest) := fun _ => rfl
  refine ⟨hidx, hname, hcall, ?_, ?_⟩
  · unfold mainPosix
    simp only [hidx, hname, hb1, hb2, hc1, hc2]
    by_cases hsel : (mainScan env.stat (p :: rest)).MostRecentSuffixIndex ≥ 0
    · simp only [hsel, if_true]
      cases env.execv (mainNewExeName env.stat (p :: rest))
        (mainNewExeName env.stat (p :: rest) :: rest) <;> rfl
    · simp only [hsel, if_false]
  · unfold mainPosix
    simp only [hidx, hname, hb1, hb2, hc1, hc2, List.headD_cons]
    by_cases hsel : (mainScan env.stat (p :: rest)).MostRecentSuffixIndex ≥ 0
    · simp only [hsel, if_true]
      cases env.execv (mainNewExeName env.stat (p :: rest))
        (mainNewExeName env.stat (p :: rest) :: rest) with
      | none =>
        simp only [List.filter_append, hlog, DEBUG_filter_not_debug, DEBUG_false,
          List.append_nil]
        rfl
      | some errno =>
        simp only [List.filter_append, hlog, DEBUG_filter_not_debug, DEBUG_false,
          List.append_nil]
        rfl
    · simp only [hsel, if_false, List.filter_append, hlog]
      rfl

/-- Witness for C17: the program `Tool.exe` with the argument `hello`, in a
directory that holds `ToolDebug.exe`, where `execv` succeeds: with and without
the flag the run ends by replacing the process image with `ToolDebug.exe` and
the vector `[ToolDebug.exe, hello]`. -/
theorem debug_mode_transparent_on_posix_witness :
    (["hello".toList].head? ≠ some DebugArgument) ∧
    (mainPosix { stat := onlyDebugStat, execv := fun _ _ => none }
        ("Tool.exe".toList :: ["hello".toList])).outcome =
      .replaced "ToolDebug.exe".toList ["ToolDebug.exe".toList, "hello".toList] ∧
    (mainPosix { stat := onlyDebugStat, execv := fun _ _ => none }
        ("Tool.exe".toList :: DebugArgument :: ["hello".toList])).outcome =
      (mainPosix { stat := onlyDebugStat, execv := fun _ _ => none }
        ("Tool.exe".toList :: ["hello".toList])).outcome :=
  ⟨by decide, by decide,
    (debug_mode_transparent_on_posix { stat := onlyDebugStat, execv := fun _ _ => none }
      "Tool.exe".toList ["hello".toList] (by decide)).2.2.2.1⟩

/-! ## Stat failures other than "no such file" -/

theorem otherErrorsAsAbsent_agrees (probe : Nat → StatResult) (i : Nat) :
    (∃ t, probe i = .ok t ∧ otherErrorsAsAbsent probe i = .ok t) ∨
      (∃ e e', probe i = .fail e ∧ otherErrorsAsAbsent probe i = .fail e') := by
  cases h : probe i with
  | ok t => exact Or.inl ⟨t, rfl, by simp [otherErrorsAsAbsent, h]⟩
  | fail e => exact Or.inr ⟨e, ENOENT, rfl, by simp [otherErrorsAsAbsent, h]⟩

/-- The error lines that the first `n` iterations of the scan write are one for
each probe that failed with an error other than "no such file", in order, with
or without the debug flag. -/
theorem scanAfter_error_lines (bDebug : Bool) (name : Nat → Str) (probe : Nat → StatResult)
    (n : Nat) :
    (scanAfter bDebug name probe n).log.filter isErrorLine =
      ((List.range n).filter (fun i => isOtherError (probe i))).map
        (fun i => match probe i with
          | .ok _ => { Format := [], args := [] }
          | .fail e => { Format := "ERROR: '%s': Could not stat file, errno %d".toList,
                         args := [.s (name i), .d e] }) := by
  induction n with
  | zero => rfl
  | succ n ih =>
    simp only [scanAfter]
    rw [scanStep_log, List.filter_append, ih, List.range_succ, List.filter_append,
      List.map_append]
    congr 1
    cases hp : probe n with
    | ok t =>
      simp only [List.filter_cons, List.filter_nil, hp, isOtherError, Bool.false_eq_true,
        if_false, List.map_nil]
      split <;> exact DEBUG_filter_error _ _ _
    | fail e =>
      by_cases he : e = ENOENT
      · simp only [List.filter_cons, List.filter_nil, hp, isOtherError, he, ne_eq,
          not_true_eq_false, decide_False, Bool.false_eq_true, if_false, if_true, List.map_nil]
        exact DEBUG_filter_error _ _ _
      · simp only [List.filter_cons, List.filter_nil, hp, isOtherError, he, ne_eq,
          not_false_eq_true, decide_True, if_true, if_false, List.map_cons, List.map_nil]
        rfl

/-- C14 (a stat failure other than "no such file" counts as absent for the
selection): replacing every failed probe by "no such file" leaves the selected
index, or the absence of a selection, unchanged; the scan writes one `ERROR:`
line for each probe that failed with another error, with or without the debug
flag; a probe that found no such file writes nothing without the debug flag and
one `DEBUG:` line with it. -/
theorem stat_error_treated_as_absent (bDebug : Bool) (name : Nat → Str)
    (probe : Nat → StatResult) :
    (scan bDebug name probe).MostRecentSuffixIndex =
      (scan bDebug name (otherErrorsAsAbsent probe)).MostRecentSuffixIndex ∧
    ((scan bDebug name probe).log.filter isErrorLine).length =
      ((List.range 4).filter (fun i => isOtherError (probe i))).length ∧
    (∀ (st : ScanState) (i : Nat) (e : Int), e ≠ ENOENT →
      (scanStep bDebug st i (name i) (.fail e)).log =
        st.log ++ LOG "ERROR: '%s': Could not stat file, errno %d" [.s (name i), .d e] ∧
      (LOG "ERROR: '%s': Could not stat file, errno %d" [.s (name i), .d e]).filter
        isErrorLine = LOG "ERROR: '%s': Could not stat file, errno %d" [.s (name i), .d e]) ∧
    (∀ (st : ScanState) (i : Nat),
      (scanStep false st i (name i) (.fail ENOENT)).log = st.log) ∧
    (∀ (st : ScanState) (i : Nat), ∃ l,
      (scanStep true st i (name i) (.fail ENOENT)).log = st.log ++ [l] ∧
        isDebugLine l = true ∧ isErrorLine l = false) := by
  refine ⟨?_, ?_, ?_, ?_, ?_⟩
  · exact (scanAfter_vars_congr bDebug bDebug name name probe (otherErrorsAsAbsent probe)
      (otherErrorsAsAbsent_agrees probe) 4).1
  · have h := scanAfter_error_lines bDebug name probe 4
    simp only [scan]
    rw [show PotentialSuffixes.length = 4 from rfl, h, List.length_map]
  · intro st i e he
    refine ⟨?_, rfl⟩
    rw [scanStep_log]
    simp only [he, if_false]
  · intro st i
    rw [scanStep_log]
    simp only [if_true, DEBUG_false, List.append_nil]
  · intro st i
    refine ⟨_, ?_, isDebugLine_DEBUG "'%s': File does not exist, ignoring" [.s (name i)] _
      (List.mem_singleton.2 rfl)⟩
    rw [scanStep_log]
    rfl

/-! ## Capacity of the command-line buffer -/

/-- C15 (buffer capacity of the Windows reconstruction): `NewCommandlineLength` is
the length of a quote, `NewExeName`, a quote, a space and `Arguments`, plus
exactly one for the terminator; so, starting from the emptied buffer, each of the
four bounded concatenations succeeds within that capacity, the last one filling
it exactly (one character less and it would fail), and the buffer then holds the
whole command line. -/
theorem commandline_buffer_capacity (Arguments NewExeName : Str) :
    NewCommandlineLength Arguments NewExeName =
      ('"' :: (NewExeName ++ '"' :: ' ' :: Arguments)).length + 1 ∧
    tcscat_s [] (NewCommandlineLength Arguments NewExeName) ExePrefix = some ['"'] ∧
    tcscat_s ['"'] (NewCommandlineLength Arguments NewExeName) NewExeName =
      some ('"' :: NewExeName) ∧
    tcscat_s ('"' :: NewExeName) (NewCommandlineLength Arguments NewExeName) ExeSuffix =
      some ('"' :: (NewExeName ++ ['"', ' '])) ∧
    tcscat_s ('"' :: (NewExeName ++ ['"', ' '])) (NewCommandlineLength Arguments NewExeName)
        Arguments =
      some ('"' :: (NewExeName ++ '"' :: ' ' :: Arguments)) ∧
    tcscat_s ('"' :: (NewExeName ++ ['"', ' '])) (NewCommandlineLength Arguments NewExeName - 1)
        Arguments = none ∧
    (∀ block : Str, block.length < NewCommandlineLength Arguments NewExeName →
      FillCommandline block (NewCommandlineLength Arguments NewExeName) NewExeName Arguments =
        some ('"' :: (NewExeName ++ '"' :: ' ' :: Arguments))) := by
  have hlen : NewCommandlineLength Arguments NewExeName =
      Arguments.length + NewExeName.length + 4 := by
    simp [NewCommandlineLength, ExePrefix, ExeSuffix]
  refine ⟨?_, ?_, ?_, ?_, ?_, ?_, ?_⟩
  · rw [hlen]
    simp only [List.length_cons, List.length_append]
    omega
  · rw [tcscat_s_of_lt _ _ _ (by rw [hlen]; simp [ExePrefix])]
    rfl
  · rw [tcscat_s_of_lt _ _ _ (by rw [hlen]; simp; omega)]
    rfl
  · rw [tcscat_s_of_lt _ _ _ (by rw [hlen]; simp [ExeSuffix]; omega)]
    rfl
  · rw [tcscat_s_of_lt _ _ _ (by rw [hlen]; simp; omega)]
    simp
  · rw [hlen]
    simp only [tcscat_s, List.length_cons, List.length_append, List.length_nil]
    rw [if_neg (by omega)]
  · intro block hb
    exact FillCommandline_eq block NewExeName Arguments hb

/-! ## Quoted identifiers -/

theorem bIdentifierIsQuoted_wrapped (X : Str) :
    bIdentifierIsQuoted ('"' :: (X ++ ['"'])) = true := by
  have hlast : ('"' :: (X ++ ['"'])).getLast? = some '"' := by
    rw [← List.cons_append, List.getLast?_concat]
  simp [bIdentifierIsQuoted, hlast]

theorem bIdentifierIsQuoted_eq_true_iff (I : Str) :
    bIdentifierIsQuoted I = true ↔ ∃ X, I = '"' :: (X ++ ['"']) := by
  constructor
  · intro h
    simp only [bIdentifierIsQuoted, Bool.and_eq_true, beq_iff_eq, decide_eq_true_eq] at h
    obtain ⟨⟨h1, h2⟩, h3⟩ := h
    cases I with
    | nil => simp at h1
    | cons c t =>
      simp only [List.head?_cons, Option.some.injEq] at h1
      subst h1
      have ht : t ≠ [] := by
        intro ht; subst ht; simp at h3
      refine ⟨t.dropLast, ?_⟩
      have hlast : t.getLast? = some '"' := by
        rw [← h2]
        cases t with
        | nil => exact absurd rfl ht
        | cons d t' => simp [List.getLast?_cons_cons]
      rw [List.getLast?_eq_getLast _ ht, Option.some.injEq] at hlast
      rw [← hlast, List.dropLast_append_getLast ht]
  · rintro ⟨X, rfl⟩
    exact bIdentifierIsQuoted_wrapped X

theorem wrapped_inner (X : Str) : (('"' :: (X ++ ['"'])).drop 1).dropLast = X := by
  simp

/-- C11 as amended (quoted-identifier rule of `SeekPast`): an identifier is
treated as quoted exactly when it is `X` between two double quotes; the match is
then made on the inner characters `X`, and it succeeds exactly when the source,
after its leading spaces, is a quote, `X`, a quote and some `R`, or does not begin
with a double quote and is `X` followed by some `R`; the result is `R` after its
leading spaces. Every other identifier (the one-character identifier `"` among
them) is matched literally, character for character, under the same rule for the
quotes of the source. -/
theorem SeekPast_quoted_identifier_rule (S X I : Str) (hI : bIdentifierIsQuoted I = false) :
    (∀ J : Str, bIdentifierIsQuoted J = true ↔ ∃ Y, J = '"' :: (Y ++ ['"'])) ∧
    bIdentifierIsQuoted ['"'] = false ∧
    (∀ T, SeekPast S ('"' :: (X ++ ['"'])) = some T ↔
      (if (S.dropWhile (fun c => c == ' ')).head? = some '"' then
        ∃ R, S.dropWhile (fun c => c == ' ') = '"' :: (X ++ '"' :: R) ∧
          T = R.dropWhile (fun c => c == ' ')
      else
        ∃ R, S.dropWhile (fun c => c == ' ') = X ++ R ∧ T = R.dropWhile (fun c => c == ' '))) ∧
    (∀ T, SeekPast S I = some T ↔
      (if (S.dropWhile (fun c => c == ' ')).head? = some '"' then
        ∃ R, S.dropWhile (fun c => c == ' ') = '"' :: (I ++ '"' :: R) ∧
          T = R.dropWhile (fun c => c == ' ')
      else
        ∃ R, S.dropWhile (fun c => c == ' ') = I ++ R ∧ T = R.dropWhile (fun c => c == ' '))) := by
  refine ⟨bIdentifierIsQuoted_eq_true_iff, by decide, ?_, ?_⟩
  · intro T
    rw [SeekPast_eq_some_iff, bIdentifierIsQuoted_wrapped, wrapped_inner]
    simp only [SeekPastChar_eq_dropWhile, if_true]
  · intro T
    rw [SeekPast_eq_some_iff, hI]
    simp only [SeekPastChar_eq_dropWhile, Bool.false_eq_true, if_false]

/-- Witness for C11: the literal identifier `Tool.exe`, and the quoted identifier
`"Tool.exe"` sought in the source `Tool.exe a`, which holds no quote. -/
theorem SeekPast_quoted_identifier_rule_witness :
    bIdentifierIsQuoted "Tool.exe".toList = false ∧
    (SeekPast "Tool.exe a".toList ('"' :: ("Tool.exe".toList ++ ['"'])) = some "a".toList ↔
      (if ("Tool.exe a".toList.dropWhile (fun c => c == ' ')).head? = some '"' then
        ∃ R, "Tool.exe a".toList.dropWhile (fun c => c == ' ') =
            '"' :: ("Tool.exe".toList ++ '"' :: R) ∧
          "a".toList = R.dropWhile (fun c => c == ' ')
      else
        ∃ R, "Tool.exe a".toList.dropWhile (fun c => c == ' ') = "Tool.exe".toList ++ R ∧
          "a".toList = R.dropWhile (fun c => c == ' '))) :=
  ⟨by decide, (SeekPast_quoted_identifier_rule "Tool.exe a".toList "Tool.exe".toList
    "Tool.exe".toList (by decide)).2.2.1 "a".toList⟩

/-- C11 as stated fails: the quoted identifier `"Tool"` is found in the source
`Tool a`, which after its leading spaces does not begin with a double quote and
so is not a quote, `Tool`, a quote and a rest. -/
theorem SeekPast_quoted_identifier_matches_bare_source :
    SeekPast "Tool a".toList ('"' :: ("Tool".toList ++ ['"'])) = some "a".toList ∧
    ¬ ∃ R, "Tool a".toList.dropWhile (fun c => c == ' ') = '"' :: ("Tool".toList ++ '"' :: R) := by
  refine ⟨by decide, ?_⟩
  rintro ⟨R, hR⟩
  have h := congrArg List.head? hR
  rw [List.head?_cons] at h
  revert h
  decide

/-! ## Space normalisation -/

end Relauncher
